import Mathlib

/-!
Verification of the packet-post transfer core: the Supabase session store
(`src/lib/webrtc/supabaseSessionStore.ts`), the signaling relay
(`src/server/signaling.cjs`) and the peer-connection orchestrator
(`src/app/components/WebRTCTransfer.tsx`), shallowly embedded in Lean.
Bytes are modelled as `Nat`, JavaScript millisecond timestamps as `Nat`,
and JavaScript numbers (where fractional values matter) as `ℚ`.
-/

namespace PacketPost

/-! ## Data-channel chunking (sender loop and receiver accumulation,
`WebRTCTransfer.tsx`, `setupDataChannel` / `handleIncomingDataMessage` /
`completeReceiverDownload`) -/

/-- Chunk size of the sender loop in `setupDataChannel`:
`const chunkSize = 64 * 1024`. -/
def chunkSize : Nat := 64 * 1024

/-- Sender chunking loop of `setupDataChannel`:
`while (offset < size) { chunk = file.slice(offset, offset + chunkSize); send(chunk); offset += chunk.byteLength }`.
Each element of the result is one binary chunk sent on the data channel. -/
def chunkFile : List Nat → List (List Nat)
  | [] => []
  | a :: rest => ((a :: rest).take chunkSize) :: chunkFile ((a :: rest).drop chunkSize)
termination_by f => f.length
decreasing_by
  simp [chunkSize]
  omega

/-- Sizes of the successive chunks for a file of `n` bytes, computed
numerically: `file.slice(offset, offset + chunkSize)` yields
`min remaining chunkSize` bytes per iteration. -/
def chunkSizes (n : Nat) : List Nat :=
  if n = 0 then [] else min n chunkSize :: chunkSizes (n - chunkSize)
termination_by n
decreasing_by
  simp [chunkSize]
  omega

/-- Control and binary messages sent over the reliable ordered data
channel, as produced by `setupDataChannel` and consumed by
`handleIncomingDataMessage`. -/
inductive DataChannelMsg
  | meta (name mimeType : String) (size : Nat)
  | chunk (payload : List Nat)
  | done
  | cancelMsg (reason : Option String)
deriving DecidableEq

/-- Receiver accumulator from `WebRTCTransfer.tsx` (`IncomingFileState`):
declared size, received byte count, and the accumulated chunks. -/
structure IncomingFileState where
  size : Nat
  received : Nat
  chunks : List (List Nat)
deriving DecidableEq

/-- Receiver-side state: the in-progress accumulator (`incomingRef`), the
reconstructed byte stream once `done` arrives (the `Blob` built by
`completeReceiverDownload`), and whether a cancel aborted the transfer. -/
structure ReceiverState where
  incoming : Option IncomingFileState
  finalized : Option (List Nat)
  canceled : Bool
deriving DecidableEq

/-- Embeds `completeReceiverDownload`: builds the blob by concatenating
the accumulated chunks (`new Blob(incoming.chunks, ...)`) and marks the
transfer completed; does nothing when no `meta` was seen. -/
def completeReceiverDownload (st : ReceiverState) : ReceiverState :=
  match st.incoming with
  | none => st
  | some inc => { st with finalized := some inc.chunks.flatten }

/-- Embeds `handleIncomingDataMessage`: a string control message is
`meta` (initialize the accumulator), `done` (finalize) or `cancel`
(abort); a binary message is appended to the current accumulator and
counted, and ignored when no `meta` was seen. -/
def handleIncomingDataMessage (st : ReceiverState) : DataChannelMsg → ReceiverState
  | .meta _ _ size => { st with incoming := some ⟨size, 0, []⟩ }
  | .chunk payload =>
      match st.incoming with
      | none => st
      | some inc =>
          { st with
            incoming := some
              { inc with
                received := inc.received + payload.length
                chunks := inc.chunks ++ [payload] } }
  | .done => completeReceiverDownload st
  | .cancelMsg _ => { st with canceled := true }

/-- Message sequence emitted by the sender in `setupDataChannel.onopen`:
one `meta` control message, the binary chunks, then `done`. -/
def senderScript (name mimeType : String) (file : List Nat) : List DataChannelMsg :=
  .meta name mimeType file.length :: (chunkFile file).map .chunk ++ [.done]

/-- Initial receiver state (no `meta` seen yet). -/
def initialReceiverState : ReceiverState := ⟨none, none, false⟩

/-- Receiver processing of a full in-order message sequence. -/
def receiverRun (msgs : List DataChannelMsg) : ReceiverState :=
  msgs.foldl handleIncomingDataMessage initialReceiverState

theorem chunkFile_cons_eq (a : Nat) (rest : List Nat) :
    chunkFile (a :: rest) =
      ((a :: rest).take chunkSize) :: chunkFile ((a :: rest).drop chunkSize) := by
  rw [chunkFile]

theorem chunkFile_flatten (f : List Nat) : (chunkFile f).flatten = f := by
  induction f using chunkFile.induct with
  | case1 => simp [chunkFile]
  | case2 a rest ih =>
      rw [chunkFile_cons_eq]
      simp only [List.flatten_cons, ih]
      exact List.take_append_drop _ _

theorem chunkFile_map_length (f : List Nat) :
    (chunkFile f).map List.length = chunkSizes f.length := by
  induction f using chunkFile.induct with
  | case1 => simp [chunkFile, chunkSizes]
  | case2 a rest ih =>
      rw [chunkFile_cons_eq, chunkSizes]
      simp only [List.map_cons, List.length_take, List.length_drop] at *
      rw [ih]
      have hne : (a :: rest).length ≠ 0 := by simp
      simp [hne, Nat.min_comm]

theorem chunkSize_pos : 0 < chunkSize := by norm_num [chunkSize]

theorem chunkSizes_unfold (n : Nat) :
    chunkSizes n =
      if n = 0 then [] else min n chunkSize :: chunkSizes (n - chunkSize) := by
  rw [chunkSizes]

theorem chunkSizes_closed_form (n : Nat) :
    chunkSizes n =
      List.replicate (n / chunkSize) chunkSize ++
        (if n % chunkSize = 0 then [] else [n % chunkSize]) := by
  induction n using chunkSizes.induct with
  | case1 =>
      rw [chunkSizes_unfold]
      simp
  | case2 n hne ih =>
      rw [chunkSizes_unfold, if_neg hne, ih]
      rcases Nat.lt_or_ge n chunkSize with hlt | hge
      · rw [Nat.sub_eq_zero_of_le hlt.le, Nat.div_eq_of_lt hlt,
          Nat.mod_eq_of_lt hlt, Nat.min_eq_left hlt.le]
        simp [hne]
      · rw [Nat.div_eq_sub_div chunkSize_pos hge, Nat.mod_eq_sub_mod hge,
          Nat.min_eq_right hge, List.replicate_succ, List.cons_append]

theorem chunkSizes_length (n : Nat) :
    (chunkSizes n).length = (n + chunkSize - 1) / chunkSize := by
  rw [chunkSizes_closed_form]
  rcases Nat.eq_zero_or_pos n with h | h
  · simp [h, chunkSize]
  · by_cases hm : n % chunkSize = 0
    · simp only [hm, if_true, List.append_nil, List.length_replicate]
      simp only [chunkSize] at *
      omega
    · simp only [hm, if_false, List.length_append, List.length_replicate,
        List.length_singleton]
      simp only [chunkSize] at *
      omega

theorem receiver_foldl_chunks (cs : List (List Nat)) :
    ∀ (sz rec : Nat) (acc : List (List Nat)) (fin : Option (List Nat)) (cl : Bool),
      List.foldl handleIncomingDataMessage ⟨some ⟨sz, rec, acc⟩, fin, cl⟩
          (cs.map .chunk) =
        ⟨some ⟨sz, rec + (cs.map List.length).sum, acc ++ cs⟩, fin, cl⟩ := by
  induction cs with
  | nil => intro sz rec acc fin cl; simp
  | cons c cs ih =>
      intro sz rec acc fin cl
      simp only [List.map_cons, List.foldl_cons, handleIncomingDataMessage]
      rw [ih]
      simp [Nat.add_assoc, List.append_assoc]

theorem receiverRun_senderScript (name mimeType : String) (f : List Nat) :
    receiverRun (senderScript name mimeType f) =
      ⟨some ⟨f.length, f.length, chunkFile f⟩, some f, false⟩ := by
  unfold receiverRun senderScript initialReceiverState
  simp only [List.foldl_cons, handleIncomingDataMessage, List.foldl_append]
  rw [receiver_foldl_chunks]
  simp only [List.foldl_cons, List.foldl_nil, handleIncomingDataMessage,
    completeReceiverDownload]
  have hsum : ((chunkFile f).map List.length).sum = f.length := by
    have := congrArg (fun l => l.length) (chunkFile_flatten f)
    simpa [List.length_flatten] using this
  simp [hsum, chunkFile_flatten]

/-- C2: after the `meta` control message declaring size `n`, the sender emits
exactly `⌈n / 65536⌉` binary chunks — each of `chunkSize = 65536` bytes except
a final chunk of `n % 65536` bytes when `n` is not a multiple of 65536 (a
150000-byte file yields chunks of sizes 65536, 65536, 18928) — followed by the
`done` control message, and the receiver's concatenation of the accumulated
chunks is byte-identical to the source file, including the `n = 0` case where
`meta` is immediately followed by `done` and the reconstructed stream is
empty. -/
theorem c2_chunking_roundtrip :
    (∀ f : List Nat,
        (chunkFile f).length = (f.length + chunkSize - 1) / chunkSize
        ∧ (chunkFile f).map List.length =
            List.replicate (f.length / chunkSize) chunkSize ++
              (if f.length % chunkSize = 0 then [] else [f.length % chunkSize])
        ∧ ∀ name mimeType : String,
            (receiverRun (senderScript name mimeType f)).finalized = some f)
    ∧ (chunkFile (List.replicate 150000 0)).map List.length =
        [65536, 65536, 18928]
    ∧ (∀ name mimeType : String,
        senderScript name mimeType [] = [.meta name mimeType 0, .done]
        ∧ (receiverRun (senderScript name mimeType [])).finalized = some []) := by
  refine ⟨fun f => ⟨?_, ?_, fun name mimeType => ?_⟩, ?_,
    fun name mimeType => ⟨?_, ?_⟩⟩
  · have h := congrArg List.length (chunkFile_map_length f)
    simpa [chunkSizes_length] using h
  · rw [chunkFile_map_length, chunkSizes_closed_form]
  · rw [receiverRun_senderScript]
  · have hlen : (List.replicate 150000 (0 : Nat)).length = 150000 := by
      rw [List.length_replicate]
    have h1 : (chunkFile (List.replicate 150000 (0 : Nat))).map List.length =
        chunkSizes 150000 :=
      (chunkFile_map_length (List.replicate 150000 (0 : Nat))).trans
        (congrArg chunkSizes hlen)
    rw [h1, chunkSizes_closed_form]
    decide
  · simp [senderScript, chunkFile]
  · rw [receiverRun_senderScript]

/-! ## Orchestrator failure escalation and fallback upload
(`WebRTCTransfer.tsx`, `handleLiveFailure` / `fallbackToUpload`) -/

/-- Orchestrator status values (`TransferStatus` in `WebRTCTransfer.tsx`). -/
inductive TransferStatus
  | idle
  | creatingSession
  | waitingPeer
  | joiningSession
  | connecting
  | connected
  | transferring
  | completed
  | failed
deriving DecidableEq

/-- Inputs read by `fallbackToUpload`: the local role, the selected file's
size (`none` when `selectedFile` is null), and the configured ceiling
(`maxUploadBytes`). These are fixed for one session attempt. -/
structure FallbackConfig where
  roleIsSender : Bool
  selectedFileSize : Option Nat
  maxUploadBytes : Nat
deriving DecidableEq

/-- Orchestrator state mutated by `handleLiveFailure` and
`fallbackToUpload`: the status, the `fallbackAttemptedRef` guard flag, how
many fallback uploads were actually started, and whether the
file-too-large skip was reported through `setError`. -/
structure FallbackState where
  status : TransferStatus
  fallbackAttempted : Bool
  uploadsStarted : Nat
  reportedSkipTooLarge : Bool
deriving DecidableEq

/-- Embeds `fallbackToUpload`: returns immediately unless the local role is
sender, a file is selected, and `fallbackAttemptedRef` is still false; when
the file exceeds `maxUploadBytes` it only reports the skip; otherwise it sets
the guard flag and starts the store-and-forward upload. -/
def fallbackToUpload (cfg : FallbackConfig) (s : FallbackState) : FallbackState :=
  if ¬cfg.roleIsSender ∨ cfg.selectedFileSize = none ∨ s.fallbackAttempted then s
  else
    match cfg.selectedFileSize with
    | none => s
    | some size =>
        if cfg.maxUploadBytes < size then { s with reportedSkipTooLarge := true }
        else
          { s with
            fallbackAttempted := true
            uploadsStarted := s.uploadsStarted + 1 }

/-- Embeds `handleLiveFailure`: sets status to `failed`, closes the peer
connection, and invokes `fallbackToUpload`. -/
def handleLiveFailure (cfg : FallbackConfig) (s : FallbackState) : FallbackState :=
  fallbackToUpload cfg { s with status := .failed }

/-- Iterated live-failure events (connectivity timeout, data-channel close
before `done`, transport failure, peer error) within one session attempt. -/
def runLiveFailures (cfg : FallbackConfig) (s : FallbackState) : Nat → FallbackState
  | 0 => s
  | n + 1 => runLiveFailures cfg (handleLiveFailure cfg s) n

theorem fallbackToUpload_attempted (cfg : FallbackConfig) (s : FallbackState)
    (h : s.fallbackAttempted = true) : fallbackToUpload cfg s = s := by
  unfold fallbackToUpload
  simp [h]

theorem handleLiveFailure_attempted (cfg : FallbackConfig) (s : FallbackState)
    (h : s.fallbackAttempted = true) :
    handleLiveFailure cfg s = { s with status := .failed } := by
  unfold handleLiveFailure
  rw [fallbackToUpload_attempted]
  exact h

theorem runLiveFailures_attempted (cfg : FallbackConfig) (n : Nat) :
    ∀ s : FallbackState, s.fallbackAttempted = true →
      runLiveFailures cfg s n =
        if n = 0 then s else { s with status := .failed } := by
  induction n with
  | zero => intro s h; simp [runLiveFailures]
  | succ n ih =>
      intro s h
      simp only [runLiveFailures, handleLiveFailure_attempted cfg s h]
      rcases Nat.eq_zero_or_pos n with h0 | h0
      · subst h0; simp [runLiveFailures]
      · rw [ih { s with status := .failed } h]
        simp [Nat.pos_iff_ne_zero.mp h0]

theorem handleLiveFailure_no_sender_file (cfg : FallbackConfig)
    (s : FallbackState)
    (hg : cfg.roleIsSender = false ∨ cfg.selectedFileSize = none) :
    handleLiveFailure cfg s = { s with status := .failed } := by
  unfold handleLiveFailure fallbackToUpload
  rcases hg with hg | hg <;> simp [hg]

theorem runLiveFailures_no_sender_file (cfg : FallbackConfig)
    (hg : cfg.roleIsSender = false ∨ cfg.selectedFileSize = none) (n : Nat) :
    ∀ s : FallbackState,
      runLiveFailures cfg s n = if n = 0 then s else { s with status := .failed } := by
  induction n with
  | zero => intro s; simp [runLiveFailures]
  | succ n ih =>
      intro s
      simp only [runLiveFailures, handleLiveFailure_no_sender_file cfg s hg]
      rcases Nat.eq_zero_or_pos n with h0 | h0
      · subst h0; simp [runLiveFailures]
      · rw [ih { s with status := .failed }]
        simp [Nat.pos_iff_ne_zero.mp h0]

theorem handleLiveFailure_too_large (cfg : FallbackConfig) (s : FallbackState)
    (sz : Nat) (hrole : cfg.roleIsSender = true)
    (hsz : cfg.selectedFileSize = some sz) (hbig : cfg.maxUploadBytes < sz)
    (hatt : s.fallbackAttempted = false) :
    handleLiveFailure cfg s =
      { s with status := .failed, reportedSkipTooLarge := true } := by
  unfold handleLiveFailure fallbackToUpload
  simp [hrole, hsz, hbig, hatt]

theorem runLiveFailures_too_large (cfg : FallbackConfig) (sz : Nat)
    (hrole : cfg.roleIsSender = true) (hsz : cfg.selectedFileSize = some sz)
    (hbig : cfg.maxUploadBytes < sz) (n : Nat) :
    ∀ s : FallbackState, s.fallbackAttempted = false →
      runLiveFailures cfg s n =
        if n = 0 then s
        else { s with status := .failed, reportedSkipTooLarge := true } := by
  induction n with
  | zero => intro s _; simp [runLiveFailures]
  | succ n ih =>
      intro s hatt
      simp only [runLiveFailures,
        handleLiveFailure_too_large cfg s sz hrole hsz hbig hatt]
      rcases Nat.eq_zero_or_pos n with h0 | h0
      · subst h0; simp [runLiveFailures]
      · rw [ih { s with status := .failed, reportedSkipTooLarge := true } hatt]
        simp [Nat.pos_iff_ne_zero.mp h0]

theorem handleLiveFailure_first_upload (cfg : FallbackConfig)
    (s : FallbackState) (sz : Nat) (hrole : cfg.roleIsSender = true)
    (hsz : cfg.selectedFileSize = some sz) (hfit : sz ≤ cfg.maxUploadBytes)
    (hatt : s.fallbackAttempted = false) :
    handleLiveFailure cfg s =
      { s with
        status := .failed
        fallbackAttempted := true
        uploadsStarted := s.uploadsStarted + 1 } := by
  unfold handleLiveFailure fallbackToUpload
  simp [hrole, hsz, hatt, Nat.not_lt.mpr hfit]

/-- C3: whenever a live transfer fails, if the local role is sender and the
selected file's size is at most the configured ceiling, the fallback
store-and-forward upload is started exactly once per session attempt no
matter how many failure events occur; if the file is larger than the
ceiling, the failure is reported (skip message, status `failed`) and no
fallback upload is ever attempted; a non-sender never uploads. -/
theorem c3_fallback_triggered_once (cfg : FallbackConfig) (s0 : FallbackState)
    (n : Nat) (hatt : s0.fallbackAttempted = false)
    (hup : s0.uploadsStarted = 0) :
    ((runLiveFailures cfg s0 n).uploadsStarted ≤ 1)
    ∧ (∀ sz, cfg.roleIsSender = true → cfg.selectedFileSize = some sz →
        sz ≤ cfg.maxUploadBytes → 1 ≤ n →
        (runLiveFailures cfg s0 n).uploadsStarted = 1
        ∧ (runLiveFailures cfg s0 n).status = .failed)
    ∧ (∀ sz, cfg.roleIsSender = true → cfg.selectedFileSize = some sz →
        cfg.maxUploadBytes < sz →
        (runLiveFailures cfg s0 n).uploadsStarted = 0
        ∧ (1 ≤ n →
            (runLiveFailures cfg s0 n).reportedSkipTooLarge = true
            ∧ (runLiveFailures cfg s0 n).status = .failed))
    ∧ (cfg.roleIsSender = false → (runLiveFailures cfg s0 n).uploadsStarted = 0) := by
  have hfit_run : ∀ sz, cfg.roleIsSender = true → cfg.selectedFileSize = some sz →
      sz ≤ cfg.maxUploadBytes → 1 ≤ n →
      (runLiveFailures cfg s0 n).uploadsStarted = 1
      ∧ (runLiveFailures cfg s0 n).status = .failed := by
    intro sz hrole hsz hfit hn
    obtain ⟨m, rfl⟩ : ∃ m, n = m + 1 := ⟨n - 1, by omega⟩
    show (runLiveFailures cfg (handleLiveFailure cfg s0) m).uploadsStarted = 1
      ∧ (runLiveFailures cfg (handleLiveFailure cfg s0) m).status = .failed
    rw [handleLiveFailure_first_upload cfg s0 sz hrole hsz hfit hatt,
      runLiveFailures_attempted cfg m _ rfl]
    rcases Nat.eq_zero_or_pos m with h0 | h0
    · subst h0; simp [hup]
    · simp [Nat.pos_iff_ne_zero.mp h0, hup]
  refine ⟨?_, hfit_run, ?_, ?_⟩
  · by_cases hrole : cfg.roleIsSender = true
    · rcases hopt : cfg.selectedFileSize with _ | sz
      · rw [runLiveFailures_no_sender_file cfg (Or.inr hopt) n]
        rcases Nat.eq_zero_or_pos n with h0 | h0
        · subst h0; simp [hup]
        · simp [Nat.pos_iff_ne_zero.mp h0, hup]
      · by_cases hfit : sz ≤ cfg.maxUploadBytes
        · rcases Nat.eq_zero_or_pos n with h0 | h0
          · subst h0; simp [runLiveFailures, hup]
          · exact le_of_eq (hfit_run sz hrole hopt hfit h0).1
        · rw [runLiveFailures_too_large cfg sz hrole hopt (Nat.not_le.mp hfit) n s0 hatt]
          rcases Nat.eq_zero_or_pos n with h0 | h0
          · subst h0; simp [hup]
          · simp [Nat.pos_iff_ne_zero.mp h0, hup]
    · rw [runLiveFailures_no_sender_file cfg
        (Or.inl (Bool.not_eq_true _ ▸ hrole)) n]
      rcases Nat.eq_zero_or_pos n with h0 | h0
      · subst h0; simp [hup]
      · simp [Nat.pos_iff_ne_zero.mp h0, hup]
  · intro sz hrole hsz hbig
    rw [runLiveFailures_too_large cfg sz hrole hsz hbig n s0 hatt]
    rcases Nat.eq_zero_or_pos n with h0 | h0
    · subst h0
      refine ⟨by simp [hup], ?_⟩
      intro hn
      omega
    · simp [Nat.pos_iff_ne_zero.mp h0, hup]
  · intro hrole
    rw [runLiveFailures_no_sender_file cfg (Or.inl hrole) n]
    rcases Nat.eq_zero_or_pos n with h0 | h0
    · subst h0; simp [hup]
    · simp [Nat.pos_iff_ne_zero.mp h0, hup]

/-- Witness for C3 at a concrete sender configuration (5-byte file, 10-byte
ceiling, three failure events). -/
theorem c3_fallback_triggered_once_witness :
    ((⟨.idle, false, 0, false⟩ : FallbackState).fallbackAttempted = false
      ∧ (⟨.idle, false, 0, false⟩ : FallbackState).uploadsStarted = 0)
    ∧ (((runLiveFailures ⟨true, some 5, 10⟩ ⟨.idle, false, 0, false⟩ 3).uploadsStarted ≤ 1)
      ∧ (∀ sz, (⟨true, some 5, 10⟩ : FallbackConfig).roleIsSender = true →
          (⟨true, some 5, 10⟩ : FallbackConfig).selectedFileSize = some sz →
          sz ≤ (⟨true, some 5, 10⟩ : FallbackConfig).maxUploadBytes → 1 ≤ 3 →
          (runLiveFailures ⟨true, some 5, 10⟩ ⟨.idle, false, 0, false⟩ 3).uploadsStarted = 1
          ∧ (runLiveFailures ⟨true, some 5, 10⟩ ⟨.idle, false, 0, false⟩ 3).status = .failed)
      ∧ (∀ sz, (⟨true, some 5, 10⟩ : FallbackConfig).roleIsSender = true →
          (⟨true, some 5, 10⟩ : FallbackConfig).selectedFileSize = some sz →
          (⟨true, some 5, 10⟩ : FallbackConfig).maxUploadBytes < sz →
          (runLiveFailures ⟨true, some 5, 10⟩ ⟨.idle, false, 0, false⟩ 3).uploadsStarted = 0
          ∧ (1 ≤ 3 →
              (runLiveFailures ⟨true, some 5, 10⟩ ⟨.idle, false, 0, false⟩ 3).reportedSkipTooLarge = true
              ∧ (runLiveFailures ⟨true, some 5, 10⟩ ⟨.idle, false, 0, false⟩ 3).status = .failed))
      ∧ ((⟨true, some 5, 10⟩ : FallbackConfig).roleIsSender = false →
          (runLiveFailures ⟨true, some 5, 10⟩ ⟨.idle, false, 0, false⟩ 3).uploadsStarted = 0)) :=
  ⟨⟨by decide, by decide⟩,
    c3_fallback_triggered_once ⟨true, some 5, 10⟩ ⟨.idle, false, 0, false⟩ 3
      (by decide) (by decide)⟩

/-! ## Orchestrator ICE-candidate handling
(`WebRTCTransfer.tsx`, `handleRelaySignal`, `ice-candidate` branch) -/

/-- Model of the browser `RTCPeerConnection` as the orchestrator uses it:
whether a remote description has been set (`setRemoteDescription` was
called), and the candidates successfully applied so far. -/
structure PeerConnState where
  remoteDescriptionSet : Bool
  appliedCandidates : List String
deriving DecidableEq

/-- Models the platform `RTCPeerConnection.addIceCandidate` API that the
`ice-candidate` branch awaits: it applies the candidate when a remote
description has been set, and rejects (throws `InvalidStateError`) when the
candidate arrives before any remote description. -/
def addIceCandidate (pc : PeerConnState) (c : String) : Option PeerConnState :=
  if pc.remoteDescriptionSet then
    some { pc with appliedCandidates := pc.appliedCandidates ++ [c] }
  else none

/-- Orchestrator connection state for signal handling: `pcRef.current` and
the status. The source keeps no buffer of pending candidates, and this
state mirrors the source's fields. -/
structure OrchConnState where
  pc : Option PeerConnState
  status : TransferStatus
deriving DecidableEq

/-- Embeds `ensurePeerConnection`: returns `pcRef.current` when present,
otherwise a fresh `RTCPeerConnection` (no remote description, no applied
candidates). -/
def ensurePeerConnection (st : OrchConnState) : PeerConnState :=
  st.pc.getD ⟨false, []⟩

/-- Embeds the `ice-candidate` branch of `handleRelaySignal`: the candidate
is applied immediately via `addIceCandidate`; a rejection is caught and
routed to `handleLiveFailure`, which sets status `failed` and closes the
peer connection (`closePeerConnection` nulls `pcRef.current`). The rejected
candidate is not retained anywhere. -/
def handleIceCandidateSignal (st : OrchConnState) (c : String) : OrchConnState :=
  let pc := ensurePeerConnection st
  match addIceCandidate pc c with
  | some pc2 => { st with pc := some pc2 }
  | none => { pc := none, status := .failed }

/-- C4 counterexample: a receiver whose peer connection exists but has no
remote description yet (the offer has not arrived) receives an
`ice-candidate` signal. The claim predicts the candidate is buffered and
applied once applicable rather than causing a failure; the code instead
escalates to `handleLiveFailure`: status becomes `failed` and the peer
connection is closed, discarding the candidate. -/
theorem c4_early_candidate_fails_counterexample :
    (handleIceCandidateSignal ⟨some ⟨false, []⟩, .connecting⟩ "cand0").status
        = .failed
    ∧ (handleIceCandidateSignal ⟨some ⟨false, []⟩, .connecting⟩ "cand0").pc
        = none := ⟨rfl, rfl⟩

/-- C4 (amended): an `ice-candidate` signal is applied immediately to the
(possibly freshly created) peer connection whenever the remote description
is already set, regardless of role; but a candidate arriving before the
remote description is set is not buffered — `addIceCandidate` rejects it
and the handler escalates through `handleLiveFailure` (status `failed`,
peer connection closed), discarding the candidate. -/
theorem c4_candidate_applied_or_failure (st : OrchConnState) (c : String) :
    (∀ pc : PeerConnState, st.pc = some pc → pc.remoteDescriptionSet = true →
        handleIceCandidateSignal st c =
          { st with
            pc := some
              { pc with appliedCandidates := pc.appliedCandidates ++ [c] } })
    ∧ ((ensurePeerConnection st).remoteDescriptionSet = false →
        (handleIceCandidateSignal st c).status = .failed
        ∧ (handleIceCandidateSignal st c).pc = none) := by
  constructor
  · intro pc hpc hrd
    unfold handleIceCandidateSignal ensurePeerConnection addIceCandidate
    simp [hpc, hrd]
  · intro hrd
    unfold handleIceCandidateSignal addIceCandidate
    simp [hrd]

/-- Witness for C4 (amended) at a concrete state with the remote
description set. -/
theorem c4_candidate_applied_or_failure_witness :
    ((⟨some ⟨true, []⟩, .connecting⟩ : OrchConnState).pc = some ⟨true, []⟩
      ∧ (⟨true, ([] : List String)⟩ : PeerConnState).remoteDescriptionSet = true)
    ∧ handleIceCandidateSignal ⟨some ⟨true, []⟩, .connecting⟩ "candA" =
        ⟨some ⟨true, ["candA"]⟩, .connecting⟩ :=
  ⟨⟨rfl, rfl⟩,
    (c4_candidate_applied_or_failure ⟨some ⟨true, []⟩, .connecting⟩ "candA").1
      ⟨true, []⟩ rfl rfl⟩

/-! ## Signaling relay: rate limiting and frame parsing (`signaling.cjs`,
`checkSocketRate` / `parseMessage` / the `ws.on('message')` handler) -/

/-- Default `SIGNALING_MAX_MESSAGE_BYTES` (64 KiB). -/
def maxMessageBytes : Nat := 64 * 1024

/-- Default `SIGNALING_MAX_MESSAGES_PER_10S`. -/
def maxMessagesPer10s : Nat := 120

/-- Width of the sliding window of `checkSocketRate` (10 s in ms). -/
def rateWindowMs : Nat := 10 * 1000

/-- Embeds `checkSocketRate`: keeps the timestamps of the last 10 seconds
(`t >= now - 10000`, written `now ≤ t + 10000` over `Nat`), rejects when
the kept count has reached the cap, and otherwise also records the new
timestamp. Returns whether the message is allowed together with the
updated `ws.__messageTimes` list. -/
def checkSocketRate (times : List Nat) (now : Nat) : Bool × List Nat :=
  let kept := times.filter fun t => decide (now ≤ t + rateWindowMs)
  if maxMessagesPer10s ≤ kept.length then (false, kept)
  else (true, kept ++ [now])

/-- Client frame shapes dispatched by the relay's message handler. -/
inductive ClientMsg
  | joinRoom
  | relayMsg
  | leaveRoom
deriving DecidableEq

/-- Raw websocket frame: its UTF-8 byte length and its decoded JSON
content (`none` when the text is not a JSON object). -/
structure RawFrame where
  byteLength : Nat
  content : Option ClientMsg
deriving DecidableEq

/-- Result of `parseMessage`. -/
inductive ParseResult
  | ok (msg : ClientMsg)
  | tooLarge
  | invalidJson
deriving DecidableEq

/-- Embeds `parseMessage`: the byte-length ceiling is checked before any
JSON parsing, so an oversized frame is rejected as `message-too-large`
without being parsed; otherwise a parse failure yields `invalid-json`. -/
def parseMessage (raw : RawFrame) : ParseResult :=
  if maxMessageBytes < raw.byteLength then .tooLarge
  else
    match raw.content with
    | some m => .ok m
    | none => .invalidJson

/-- Observable outcome of one `ws.on('message')` invocation: either the
frame was dispatched to a message handler, or an error frame
`{type:'error', code}` was sent, with `closed = true` exactly when the
handler also closed the socket (`reject(..., true)`). -/
inductive ServerAction
  | dispatched (msg : ClientMsg)
  | errorSent (code : String) (closed : Bool)
deriving DecidableEq

/-- Embeds the `ws.on('message')` pipeline of `signaling.cjs`: the rate
check runs first and a violation sends `rate-limited` and closes the
socket; then `parseMessage` runs, and `message-too-large` / `invalid-json`
are reported without closing; a well-formed frame is dispatched. -/
def handleRawMessage (times : List Nat) (now : Nat) (raw : RawFrame) :
    List Nat × ServerAction :=
  match checkSocketRate times now with
  | (false, kept) => (kept, .errorSent "rate-limited" true)
  | (true, kept) =>
      match parseMessage raw with
      | .tooLarge => (kept, .errorSent "message-too-large" false)
      | .invalidJson => (kept, .errorSent "invalid-json" false)
      | .ok m => (kept, .dispatched m)

/-- Processes a sequence of timestamped raw frames on one connection,
threading `ws.__messageTimes` and collecting the actions. -/
def processFrames (times : List Nat) :
    List (Nat × RawFrame) → List Nat × List ServerAction
  | [] => (times, [])
  | (now, raw) :: rest =>
      let step := handleRawMessage times now raw
      let tail := processFrames step.1 rest
      (tail.1, step.2 :: tail.2)

theorem checkSocketRate_all_kept (times : List Nat) (now : Nat)
    (hkeep : ∀ t ∈ times, now ≤ t + rateWindowMs) :
    checkSocketRate times now =
      if maxMessagesPer10s ≤ times.length then (false, times)
      else (true, times ++ [now]) := by
  unfold checkSocketRate
  rw [List.filter_eq_self.mpr fun t ht => decide_eq_true (hkeep t ht)]

theorem processFrames_append (times : List Nat) (xs ys : List (Nat × RawFrame)) :
    processFrames times (xs ++ ys) =
      ((processFrames (processFrames times xs).1 ys).1,
        (processFrames times xs).2 ++ (processFrames (processFrames times xs).1 ys).2) := by
  induction xs generalizing times with
  | nil => simp [processFrames]
  | cons x xs ih =>
      obtain ⟨now, raw⟩ := x
      simp only [List.cons_append, processFrames, List.append_eq]
      rw [ih]

theorem processFrames_in_window (frame : RawFrame) (m : ClientMsg)
    (hparse : parseMessage frame = .ok m) (t0 : Nat) :
    ∀ (ts cur : List Nat),
      (∀ t ∈ cur, t0 ≤ t ∧ t < t0 + rateWindowMs) →
      (∀ t ∈ ts, t0 ≤ t ∧ t < t0 + rateWindowMs) →
      cur.length + ts.length ≤ maxMessagesPer10s →
      processFrames cur (ts.map fun t => (t, frame)) =
        (cur ++ ts, List.replicate ts.length (.dispatched m)) := by
  intro ts
  induction ts with
  | nil => intro cur _ _ _; simp [processFrames]
  | cons now rest ih =>
      intro cur hcur hts hlen
      rw [List.length_cons] at hlen
      have hnow : t0 ≤ now ∧ now < t0 + rateWindowMs := hts now (by simp)
      have hkeep : ∀ t ∈ cur, now ≤ t + rateWindowMs := by
        intro t ht
        have := (hcur t ht).1
        omega
      have hlt : ¬ maxMessagesPer10s ≤ cur.length := by omega
      simp only [List.map_cons, processFrames, handleRawMessage,
        checkSocketRate_all_kept cur now hkeep, if_neg hlt, hparse]
      rw [ih (cur ++ [now])
        (by
          intro t ht
          rcases List.mem_append.mp ht with h | h
          · exact hcur t h
          · simpa using List.mem_singleton.mp h ▸ hnow)
        (fun t ht => hts t (by simp [ht]))
        (by
          rw [List.length_append, List.length_cons, List.length_nil]
          omega)]
      simp [List.append_assoc, List.replicate_succ]

/-- C5: on a single relay connection, when `maxMessagesPer10s + 1 = 121`
messages are sent within one 10-second window, the first 120 are
dispatched, the 121st is rejected with a `rate-limited` error and the
connection is closed; once the window has elapsed, the rate check on that
connection's timestamp list accepts messages again. -/
theorem c5_rate_limit_and_recovery (t0 : Nat) (ts : List Nat) (tlast : Nat)
    (frame : RawFrame) (m : ClientMsg)
    (hparse : parseMessage frame = .ok m)
    (hlen : ts.length = maxMessagesPer10s)
    (hwin : ∀ t ∈ ts, t0 ≤ t ∧ t < t0 + rateWindowMs)
    (hlast1 : t0 ≤ tlast) (hlast2 : tlast < t0 + rateWindowMs) :
    processFrames [] ((ts.map fun t => (t, frame)) ++ [(tlast, frame)]) =
      (ts, List.replicate maxMessagesPer10s (.dispatched m) ++
        [.errorSent "rate-limited" true])
    ∧ (checkSocketRate ts (t0 + 2 * rateWindowMs)).1 = true := by
  have hfirst := processFrames_in_window frame m hparse t0 ts []
    (by intro t ht; simp at ht) hwin (by simp [hlen])
  constructor
  · rw [processFrames_append, hfirst]
    have hkeep : ∀ t ∈ ts, tlast ≤ t + rateWindowMs := by
      intro t ht
      have := (hwin t ht).1
      omega
    simp only [List.nil_append, processFrames, handleRawMessage,
      checkSocketRate_all_kept ts tlast hkeep, hlen, le_refl, if_true]
  · have hnone : ts.filter (fun t => decide (t0 + 2 * rateWindowMs ≤ t + rateWindowMs)) = [] := by
      rw [List.filter_eq_nil_iff]
      intro t ht
      have := (hwin t ht).2
      simp only [decide_eq_true_eq]
      omega
    unfold checkSocketRate
    rw [hnone]
    simp [maxMessagesPer10s]

/-- Witness for C5: 120 messages at time 1000 followed by a 121st at time
1500, recovery checked at time 21000. -/
theorem c5_rate_limit_and_recovery_witness :
    (parseMessage ⟨10, some .leaveRoom⟩ = .ok .leaveRoom
      ∧ (List.replicate 120 1000).length = maxMessagesPer10s
      ∧ (∀ t ∈ List.replicate 120 1000, 1000 ≤ t ∧ t < 1000 + rateWindowMs)
      ∧ 1000 ≤ 1500 ∧ 1500 < 1000 + rateWindowMs)
    ∧ (processFrames []
        (((List.replicate 120 1000).map fun t => (t, ⟨10, some .leaveRoom⟩)) ++
          [(1500, ⟨10, some .leaveRoom⟩)]) =
        (List.replicate 120 1000,
          List.replicate maxMessagesPer10s (.dispatched .leaveRoom) ++
            [.errorSent "rate-limited" true])
      ∧ (checkSocketRate (List.replicate 120 1000) (1000 + 2 * rateWindowMs)).1 = true) :=
  ⟨⟨by decide, by decide, by decide, by decide, by decide⟩,
    c5_rate_limit_and_recovery 1000 (List.replicate 120 1000) 1500
      ⟨10, some .leaveRoom⟩ .leaveRoom (by decide) (by decide) (by decide)
      (by decide) (by decide)⟩

/-- C6 counterexample: an oversized raw frame (65537 bytes on the default
64 KiB ceiling) is rejected with `message-too-large`, but the connection
is left open (`closed = false`), unlike `rate-limited`, which closes it —
refuting the claim that `message-too-large` is terminal. -/
theorem c6_too_large_not_terminal_counterexample :
    (handleRawMessage [] 0 ⟨65537, none⟩).2 = .errorSent "message-too-large" false
    ∧ ¬ (handleRawMessage [] 0 ⟨65537, none⟩).2 = .errorSent "message-too-large" true := by
  constructor
  · rfl
  · intro h
    simp [handleRawMessage, checkSocketRate, parseMessage, maxMessageBytes,
      maxMessagesPer10s, rateWindowMs] at h

/-- C6 (amended): a raw frame whose byte length exceeds the ceiling is
rejected without being parsed — `parseMessage` returns `message-too-large`
whatever the frame content, even unparseable content — and the handler
reports it as an error frame while keeping the connection open; only
`rate-limited` (among this pipeline's rejections) closes the connection. -/
theorem c6_oversized_rejected_without_parsing (raw : RawFrame)
    (times : List Nat) (now : Nat)
    (hbig : maxMessageBytes < raw.byteLength)
    (hrate : (checkSocketRate times now).1 = true) :
    parseMessage raw = .tooLarge
    ∧ (∀ c : Option ClientMsg, parseMessage ⟨raw.byteLength, c⟩ = .tooLarge)
    ∧ (handleRawMessage times now raw).2 = .errorSent "message-too-large" false := by
  have hparse : parseMessage raw = .tooLarge := by
    unfold parseMessage
    simp [hbig]
  refine ⟨hparse, ?_, ?_⟩
  · intro c
    unfold parseMessage
    simp [hbig]
  · unfold handleRawMessage
    rcases hr : checkSocketRate times now with ⟨allowed, kept⟩
    rw [hr] at hrate
    simp only at hrate
    subst hrate
    simp [hparse]

/-- Witness for C6 (amended) at a concrete oversized frame on a fresh
connection. -/
theorem c6_oversized_rejected_without_parsing_witness :
    (maxMessageBytes < 65537 ∧ (checkSocketRate [] 0).1 = true)
    ∧ (parseMessage ⟨65537, some .relayMsg⟩ = .tooLarge
      ∧ (∀ c : Option ClientMsg, parseMessage ⟨65537, c⟩ = .tooLarge)
      ∧ (handleRawMessage [] 0 ⟨65537, some .relayMsg⟩).2 =
          .errorSent "message-too-large" false) :=
  ⟨⟨by decide, by decide⟩,
    c6_oversized_rejected_without_parsing ⟨65537, some .relayMsg⟩ [] 0
      (by decide) (by decide)⟩

/-! ## Signaling relay: rooms and slots (`signaling.cjs`,
`attachPeer` / `detachPeer` / `cleanupRoomIfEmpty`) -/

/-- Peer roles on a transfer session / relay room. -/
inductive PeerRole
  | sender
  | receiver
deriving DecidableEq

/-- Relay room for one transfer id: each slot is empty (`null`) or holds
`{ws, token}`; connections are named by numeric ids, tokens by numbers. -/
structure RelayRoom where
  senderSlot : Option (Nat × Nat)
  receiverSlot : Option (Nat × Nat)
deriving DecidableEq

/-- Reads `room[role]`. -/
def RelayRoom.slot (room : RelayRoom) : PeerRole → Option (Nat × Nat)
  | .sender => room.senderSlot
  | .receiver => room.receiverSlot

/-- Writes `room[role] = v`. -/
def RelayRoom.setSlot (room : RelayRoom) : PeerRole → Option (Nat × Nat) → RelayRoom
  | .sender, v => { room with senderSlot := v }
  | .receiver, v => { room with receiverSlot := v }

/-- Relay state for one transfer id: the room (absent when deleted), each
connection's `ws.__peer` binding, and which connections have been closed
(or had their close initiated). -/
structure RelayState where
  room : Option RelayRoom
  bound : Nat → Option (PeerRole × Nat)
  closed : Nat → Bool

/-- Embeds `getOtherRole`. -/
def getOtherRole : PeerRole → PeerRole
  | .sender => .receiver
  | .receiver => .sender

/-- Embeds `attachPeer` for a validated `join-room`: `getOrCreateRoom`
first; a different token in the target slot is `role-taken` (the joining
connection is closed, the slot is untouched); the same token on a
different connection closes the stale occupant first; then the slot is
installed and `ws.__peer` is bound. -/
def attachPeer (s : RelayState) (c : Nat) (role : PeerRole) (token : Nat) :
    RelayState :=
  let room := s.room.getD ⟨none, none⟩
  match room.slot role with
  | some (c0, tok0) =>
      if tok0 ≠ token then
        { s with
          room := some room
          closed := fun i => if i = c then true else s.closed i }
      else
        { room := some (room.setSlot role (some (c, token)))
          bound := fun i => if i = c then some (role, token) else s.bound i
          closed := fun i => if c0 ≠ c ∧ i = c0 then true else s.closed i }
  | none =>
      { room := some (room.setSlot role (some (c, token)))
        bound := fun i => if i = c then some (role, token) else s.bound i
        closed := s.closed }

/-- Slot update performed by `detachPeer`: the slot is cleared only when
the closing connection is the one currently occupying it
(`if (slot && slot.ws === ws) room[peer.role] = null`). -/
def roomAfterDetach (room : RelayRoom) (role : PeerRole) (c : Nat) : RelayRoom :=
  match room.slot role with
  | some (c0, _) => if c0 = c then room.setSlot role none else room
  | none => room

/-- Embeds `detachPeer` plus `cleanupRoomIfEmpty`: run on a connection's
close event; clears the slot only when the closing connection is the one
currently occupying it, then deletes the room when both slots are empty. -/
def detachPeer (s : RelayState) (c : Nat) : RelayState :=
  match s.bound c with
  | none => s
  | some (role, _) =>
      match s.room with
      | none => s
      | some room =>
          let room2 := roomAfterDetach room role c
          if room2.senderSlot = none ∧ room2.receiverSlot = none then
            { s with room := none }
          else
            { s with room := some room2 }

/-- Processing of a connection's `close`/`error` event: the connection is
now closed, and `detachPeer` runs. -/
def closeConn (s : RelayState) (c : Nat) : RelayState :=
  detachPeer { s with closed := fun i => if i = c then true else s.closed i } c

/-- Events driving the relay state for one transfer id. -/
inductive RelayEv
  | join (c : Nat) (role : PeerRole) (token : Nat)
  | close (c : Nat)

/-- One event step. -/
def relayStep (s : RelayState) : RelayEv → RelayState
  | .join c role token => attachPeer s c role token
  | .close c => closeConn s c

/-- Event-sequence run. -/
def relayRun (s : RelayState) (evs : List RelayEv) : RelayState :=
  evs.foldl relayStep s

/-- Initial relay state: no room, no bindings, nothing closed. -/
def initialRelayState : RelayState := ⟨none, fun _ => none, fun _ => false⟩

/-- Main slot invariant: every connection still bound to a role either has
been closed or is the current occupant of that role's slot. -/
def RelayInv (s : RelayState) : Prop :=
  ∀ c role tok, s.bound c = some (role, tok) →
    s.closed c = true ∨
      ∃ room, s.room = some room ∧ room.slot role = some (c, tok)

theorem slot_setSlot_same (room : RelayRoom) (r : PeerRole)
    (v : Option (Nat × Nat)) : (room.setSlot r v).slot r = v := by
  cases r <;> rfl

theorem slot_setSlot_other (room : RelayRoom) (r r' : PeerRole)
    (v : Option (Nat × Nat)) (h : r' ≠ r) :
    (room.setSlot r v).slot r' = room.slot r' := by
  cases r <;> cases r' <;> first | rfl | exact absurd rfl h

theorem attachPeer_reject (s : RelayState) (c : Nat) (role : PeerRole)
    (token c0 tok0 : Nat)
    (hslot : (s.room.getD ⟨none, none⟩).slot role = some (c0, tok0))
    (hne : tok0 ≠ token) :
    attachPeer s c role token =
      { s with
        room := some (s.room.getD ⟨none, none⟩)
        closed := fun i => if i = c then true else s.closed i } := by
  simp only [attachPeer, hslot]
  rw [if_pos hne]

theorem attachPeer_install (s : RelayState) (c : Nat) (role : PeerRole)
    (token c0 : Nat)
    (hslot : (s.room.getD ⟨none, none⟩).slot role = some (c0, token)) :
    attachPeer s c role token =
      { room := some ((s.room.getD ⟨none, none⟩).setSlot role (some (c, token)))
        bound := fun i => if i = c then some (role, token) else s.bound i
        closed := fun i => if c0 ≠ c ∧ i = c0 then true else s.closed i } := by
  simp only [attachPeer, hslot]
  rw [if_neg (by simp)]

theorem attachPeer_fresh (s : RelayState) (c : Nat) (role : PeerRole)
    (token : Nat)
    (hslot : (s.room.getD ⟨none, none⟩).slot role = none) :
    attachPeer s c role token =
      { room := some ((s.room.getD ⟨none, none⟩).setSlot role (some (c, token)))
        bound := fun i => if i = c then some (role, token) else s.bound i
        closed := s.closed } := by
  simp only [attachPeer, hslot]

theorem detachPeer_unbound (s : RelayState) (c : Nat)
    (hb : s.bound c = none) : detachPeer s c = s := by
  simp only [detachPeer, hb]

theorem detachPeer_noroom (s : RelayState) (c : Nat) (role : PeerRole)
    (tok : Nat) (hb : s.bound c = some (role, tok)) (hr : s.room = none) :
    detachPeer s c = s := by
  simp only [detachPeer, hb, hr]

theorem detachPeer_room (s : RelayState) (c : Nat) (role : PeerRole)
    (tok : Nat) (room : RelayRoom) (hb : s.bound c = some (role, tok))
    (hr : s.room = some room) :
    detachPeer s c =
      if (roomAfterDetach room role c).senderSlot = none
          ∧ (roomAfterDetach room role c).receiverSlot = none then
        { s with room := none }
      else
        { s with room := some (roomAfterDetach room role c) } := by
  simp only [detachPeer, hb, hr]

theorem roomAfterDetach_empty (room : RelayRoom) (role : PeerRole) (c : Nat)
    (hsl : room.slot role = none) : roomAfterDetach room role c = room := by
  simp only [roomAfterDetach, hsl]

theorem roomAfterDetach_other (room : RelayRoom) (role : PeerRole)
    (c c0 t0 : Nat) (hsl : room.slot role = some (c0, t0)) (hc0 : c0 ≠ c) :
    roomAfterDetach room role c = room := by
  simp only [roomAfterDetach, hsl]
  rw [if_neg hc0]

theorem roomAfterDetach_clear (room : RelayRoom) (role : PeerRole)
    (c t0 : Nat) (hsl : room.slot role = some (c, t0)) :
    roomAfterDetach room role c = room.setSlot role none := by
  simp [roomAfterDetach, hsl]

theorem relayInv_attach (s : RelayState) (c : Nat) (role : PeerRole)
    (token : Nat) (h : RelayInv s) : RelayInv (attachPeer s c role token) := by
  rcases hslot : (s.room.getD ⟨none, none⟩).slot role with _ | ⟨c0, tok0⟩
  · rw [attachPeer_fresh s c role token hslot]
    intro c' role' tok' hb
    simp only at hb ⊢
    by_cases hc : c' = c
    · subst hc
      rw [if_pos rfl] at hb
      injection hb with hb2
      injection hb2 with hrole htok
      subst hrole
      subst htok
      exact Or.inr ⟨_, rfl, slot_setSlot_same _ _ _⟩
    · rw [if_neg hc] at hb
      rcases h c' role' tok' hb with hcl | ⟨r0, hr0, hs0⟩
      · exact Or.inl hcl
      · by_cases hrr : role' = role
        · subst hrr
          rw [hr0] at hslot
          simp only [Option.getD_some] at hslot
          rw [hslot] at hs0
          exact absurd hs0 (by simp)
        · refine Or.inr ⟨_, rfl, ?_⟩
          rw [slot_setSlot_other _ _ _ _ hrr, hr0]
          simp only [Option.getD_some]
          exact hs0
  · by_cases htok : tok0 = token
    · subst htok
      rw [attachPeer_install s c role tok0 c0 hslot]
      intro c' role' tok' hb
      simp only at hb ⊢
      by_cases hc : c' = c
      · subst hc
        rw [if_pos rfl] at hb
        injection hb with hb2
        injection hb2 with hrole htok
        subst hrole
        subst htok
        exact Or.inr ⟨_, rfl, slot_setSlot_same _ _ _⟩
      · rw [if_neg hc] at hb
        rcases h c' role' tok' hb with hcl | ⟨r0, hr0, hs0⟩
        · refine Or.inl ?_
          split
          · rfl
          · exact hcl
        · rw [hr0] at hslot
          simp only [Option.getD_some] at hslot
          by_cases hrr : role' = role
          · subst hrr
            rw [hslot] at hs0
            injection hs0 with hs1
            have hc0 : c' = c0 := by
              have := congrArg Prod.fst hs1
              exact this.symm
            subst hc0
            refine Or.inl ?_
            rw [if_pos ⟨hc, rfl⟩]
          · refine Or.inr ⟨_, rfl, ?_⟩
            rw [slot_setSlot_other _ _ _ _ hrr, hr0]
            simp only [Option.getD_some]
            exact hs0
    · rw [attachPeer_reject s c role token c0 tok0 hslot htok]
      intro c' role' tok' hb
      simp only at hb ⊢
      rcases h c' role' tok' hb with hcl | ⟨r0, hr0, hs0⟩
      · refine Or.inl ?_
        split
        · rfl
        · exact hcl
      · refine Or.inr ⟨_, rfl, ?_⟩
        rw [hr0]
        simp only [Option.getD_some]
        exact hs0

theorem slot_some_not_empty (room : RelayRoom) (r : PeerRole)
    (x : Nat × Nat) (h : room.slot r = some x) :
    ¬(room.senderSlot = none ∧ room.receiverSlot = none) := by
  intro ⟨hs, hr⟩
  cases r <;> simp only [RelayRoom.slot] at h
  · rw [hs] at h
    exact Option.noConfusion h
  · rw [hr] at h
    exact Option.noConfusion h

theorem relayInv_mark (s : RelayState) (c : Nat) (h : RelayInv s) :
    RelayInv { s with closed := fun i => if i = c then true else s.closed i } := by
  intro c' role' tok' hb
  simp only at hb ⊢
  rcases h c' role' tok' hb with hcl | hocc
  · refine Or.inl ?_
    split
    · rfl
    · exact hcl
  · exact Or.inr hocc

theorem detach_end_inv (s : RelayState) (c : Nat) (r room2 : RelayRoom)
    (hclosed : s.closed c = true) (h : RelayInv s) (hr : s.room = some r)
    (key : ∀ role' c' tok', c' ≠ c → r.slot role' = some (c', tok') →
      room2.slot role' = some (c', tok')) :
    RelayInv
      (if room2.senderSlot = none ∧ room2.receiverSlot = none then
        { s with room := none }
      else { s with room := some room2 }) := by
  by_cases hemp : room2.senderSlot = none ∧ room2.receiverSlot = none
  · rw [if_pos hemp]
    intro c' role' tok' hb'
    simp only at hb' ⊢
    by_cases hcc : c' = c
    · subst hcc
      exact Or.inl hclosed
    · rcases h c' role' tok' hb' with hcl | ⟨r0, hr0, hs0⟩
      · exact Or.inl hcl
      · rw [hr] at hr0
        injection hr0 with he
        subst he
        exact absurd hemp
          (slot_some_not_empty room2 role' _ (key role' c' tok' hcc hs0))
  · rw [if_neg hemp]
    intro c' role' tok' hb'
    simp only at hb' ⊢
    by_cases hcc : c' = c
    · subst hcc
      exact Or.inl hclosed
    · rcases h c' role' tok' hb' with hcl | ⟨r0, hr0, hs0⟩
      · exact Or.inl hcl
      · rw [hr] at hr0
        injection hr0 with he
        subst he
        exact Or.inr ⟨room2, rfl, key role' c' tok' hcc hs0⟩

theorem relayInv_detach (s : RelayState) (c : Nat)
    (hclosed : s.closed c = true) (h : RelayInv s) :
    RelayInv (detachPeer s c) := by
  rcases hb : s.bound c with _ | ⟨role, tok⟩
  · rw [detachPeer_unbound s c hb]
    exact h
  rcases hr : s.room with _ | r
  · rw [detachPeer_noroom s c role tok hb hr]
    exact h
  rw [detachPeer_room s c role tok r hb hr]
  rcases hsl : r.slot role with _ | ⟨c0, tokc0⟩
  · rw [roomAfterDetach_empty r role c hsl]
    exact detach_end_inv s c r r hclosed h hr fun role' c' tok' _ hs => hs
  by_cases hc0 : c0 = c
  · subst hc0
    rw [roomAfterDetach_clear r role c0 tokc0 hsl]
    refine detach_end_inv s c0 r (r.setSlot role none) hclosed h hr ?_
    intro role' c' tok' hcc hs
    by_cases hrr : role' = role
    · subst hrr
      rw [hsl] at hs
      injection hs with hs2
      exact absurd (congrArg Prod.fst hs2).symm hcc
    · rw [slot_setSlot_other _ _ _ _ hrr]
      exact hs
  · rw [roomAfterDetach_other r role c c0 tokc0 hsl hc0]
    exact detach_end_inv s c r r hclosed h hr fun role' c' tok' _ hs => hs

theorem relayInv_closeConn (s : RelayState) (c : Nat) (h : RelayInv s) :
    RelayInv (closeConn s c) := by
  unfold closeConn
  refine relayInv_detach _ c ?_ (relayInv_mark s c h)
  simp

theorem relayInv_run (evs : List RelayEv) :
    ∀ s : RelayState, RelayInv s → RelayInv (relayRun s evs) := by
  induction evs with
  | nil => intro s h; exact h
  | cons e rest ih =>
      intro s h
      show RelayInv (relayRun (relayStep s e) rest)
      refine ih _ ?_
      cases e with
      | join c role token => exact relayInv_attach s c role token h
      | close c => exact relayInv_closeConn s c h

theorem closeConn_preserves_other_slot (s : RelayState) (c : Nat)
    (role : PeerRole) (c2 tok : Nat) (r : RelayRoom)
    (hr : s.room = some r) (hslot : r.slot role = some (c2, tok))
    (hc2 : c2 ≠ c) :
    ∃ r3, (closeConn s c).room = some r3 ∧ r3.slot role = some (c2, tok) := by
  unfold closeConn
  set sm : RelayState :=
    { s with closed := fun i => if i = c then true else s.closed i } with hsm
  have hrm : sm.room = some r := hr
  rcases hb : sm.bound c with _ | ⟨roleb, tokb⟩
  · rw [detachPeer_unbound sm c hb]
    exact ⟨r, hrm, hslot⟩
  · rw [detachPeer_room sm c roleb tokb r hb hrm]
    have hslot2 : (roomAfterDetach r roleb c).slot role = some (c2, tok) := by
      by_cases hrr : roleb = role
      · subst hrr
        rw [roomAfterDetach_other r roleb c c2 tok hslot hc2]
        exact hslot
      · rcases hsb : r.slot roleb with _ | ⟨c0, t0⟩
        · rw [roomAfterDetach_empty r roleb c hsb]
          exact hslot
        · by_cases hc0 : c0 = c
          · subst hc0
            rw [roomAfterDetach_clear r roleb c0 t0 hsb,
              slot_setSlot_other _ _ _ _ fun hh => hrr hh.symm]
            exact hslot
          · rw [roomAfterDetach_other r roleb c c0 t0 hsb hc0]
            exact hslot
    rw [if_neg (slot_some_not_empty _ role _ hslot2)]
    exact ⟨roomAfterDetach r roleb c, rfl, hslot2⟩

/-- C9: in every reachable relay state, a room slot is occupied by at most
one live (unclosed) attached connection; a `join-room` carrying the same
token on a different connection closes the old connection before
installing the new one; and the replaced connection's subsequent close
event leaves the slot holding the new connection, because a close clears a
slot only when the closing connection is the one currently occupying it. -/
theorem c9_slot_single_live_connection (evs : List RelayEv) :
    (∀ c c' role tok tok',
        (relayRun initialRelayState evs).closed c = false →
        (relayRun initialRelayState evs).closed c' = false →
        (relayRun initialRelayState evs).bound c = some (role, tok) →
        (relayRun initialRelayState evs).bound c' = some (role, tok') →
        c = c')
    ∧ (∀ (s : RelayState) (r : RelayRoom) (c1 c2 tok : Nat) (role : PeerRole),
        s.room = some r → r.slot role = some (c1, tok) → c2 ≠ c1 →
        (attachPeer s c2 role tok).room =
            some (r.setSlot role (some (c2, tok)))
          ∧ (attachPeer s c2 role tok).closed c1 = true
          ∧ ∃ r3, (closeConn (attachPeer s c2 role tok) c1).room = some r3
              ∧ r3.slot role = some (c2, tok))
    ∧ (∀ (s : RelayState) (r : RelayRoom) (c c2 tok : Nat) (role : PeerRole),
        s.room = some r → r.slot role = some (c2, tok) → c2 ≠ c →
        ∃ r3, (closeConn s c).room = some r3
          ∧ r3.slot role = some (c2, tok)) := by
  refine ⟨?_, ?_, fun s r c c2 tok role hr hslot hc2 =>
    closeConn_preserves_other_slot s c role c2 tok r hr hslot hc2⟩
  · have hinv : RelayInv (relayRun initialRelayState evs) := by
      refine relayInv_run evs initialRelayState ?_
      intro c role tok hb
      exact Option.noConfusion hb
    intro c c' role tok tok' hc hc' hb hb'
    rcases hinv c role tok hb with hcl | ⟨r, hr, hs⟩
    · rw [hcl] at hc
      exact Bool.noConfusion hc
    · rcases hinv c' role tok' hb' with hcl' | ⟨r', hr', hs'⟩
      · rw [hcl'] at hc'
        exact Bool.noConfusion hc'
      · rw [hr] at hr'
        injection hr' with he
        subst he
        rw [hs] at hs'
        injection hs' with hp
        simp only [Prod.mk.injEq] at hp
        exact hp.1
  · intro s r c1 c2 tok role hr hslot hc2
    have hgetd : s.room.getD ⟨none, none⟩ = r := by
      rw [hr]
      rfl
    have hins := attachPeer_install s c2 role tok c1 (by rw [hgetd]; exact hslot)
    rw [hgetd] at hins
    refine ⟨?_, ?_, ?_⟩
    · rw [hins]
    · rw [hins]
      have hne : c1 ≠ c2 := fun hh => hc2 hh.symm
      simp [hne]
    · refine closeConn_preserves_other_slot _ c1 role c2 tok
        (r.setSlot role (some (c2, tok))) ?_ (slot_setSlot_same _ _ _) hc2
      rw [hins]

/-- Witness for C9: one room whose sender slot holds connection 1 with
token 42; connection 2 joins with the same token and then connection 1's
close event is processed. -/
theorem c9_slot_single_live_connection_witness :
    ((⟨some ⟨some (1, 42), none⟩, fun _ => none, fun _ => false⟩ : RelayState).room
        = some ⟨some (1, 42), none⟩
      ∧ (⟨some (1, 42), none⟩ : RelayRoom).slot .sender = some (1, 42)
      ∧ (2 : Nat) ≠ 1)
    ∧ ((attachPeer ⟨some ⟨some (1, 42), none⟩, fun _ => none, fun _ => false⟩
          2 .sender 42).room =
        some ((⟨some (1, 42), none⟩ : RelayRoom).setSlot .sender (some (2, 42)))
      ∧ (attachPeer ⟨some ⟨some (1, 42), none⟩, fun _ => none, fun _ => false⟩
          2 .sender 42).closed 1 = true
      ∧ ∃ r3,
          (closeConn
            (attachPeer ⟨some ⟨some (1, 42), none⟩, fun _ => none, fun _ => false⟩
              2 .sender 42) 1).room = some r3
          ∧ r3.slot .sender = some (2, 42)) :=
  ⟨⟨rfl, rfl, by decide⟩,
    (c9_slot_single_live_connection []).2.1
      ⟨some ⟨some (1, 42), none⟩, fun _ => none, fun _ => false⟩
      ⟨some (1, 42), none⟩ 1 2 42 .sender rfl rfl (by decide)⟩

/-! ## Session store: transfer codes and TTL
(`supabaseSessionStore.ts`, `makeTransferCode` / `readTtlMinutes`, and the
join route's format check in `app/api/transfer/join/route.ts`) -/

/-- Uppercase hex digit of a nibble, as produced by
`randomBytes(..).toString('hex')` followed by `.toUpperCase()`. -/
def hexChar (n : Nat) : Char :=
  if n < 10 then Char.ofNat (48 + n) else Char.ofNat (55 + n)

/-- Two-digit uppercase hex rendering of one random byte (hex output is
zero-padded to two digits per byte). -/
def byteToHex (b : Nat) : List Char := [hexChar (b / 16), hexChar (b % 16)]

/-- Embeds `makeTransferCode`: two random bytes in hex, a dash, two more
random bytes in hex, upper-cased — the `XXXX-XXXX` shape. -/
def makeTransferCode (b1 b2 b3 b4 : Nat) : List Char :=
  byteToHex b1 ++ byteToHex b2 ++ ['-'] ++ byteToHex b3 ++ byteToHex b4

/-- One character of the join route's documented alphabet `[A-Z0-9]`. -/
def isCodeChar (c : Char) : Bool :=
  ('A' ≤ c && c ≤ 'Z') || ('0' ≤ c && c ≤ '9')

/-- The join route's format test `^[A-Z0-9]{4}-[A-Z0-9]{4}$`, applied to
the already trimmed and upper-cased input code. -/
def matchesCodeFormat : List Char → Bool
  | [a, b, c, d, '-', e, f, g, h] =>
      isCodeChar a && isCodeChar b && isCodeChar c && isCodeChar d &&
        isCodeChar e && isCodeChar f && isCodeChar g && isCodeChar h
  | _ => false

/-- Uppercase hexadecimal character `[0-9A-F]`. -/
def isHexUpperChar (c : Char) : Bool :=
  ('0' ≤ c && c ≤ '9') || ('A' ≤ c && c ≤ 'F')

/-- The pattern `^[0-9A-F]{4}-[0-9A-F]{4}$` actually achieved by
`makeTransferCode`. -/
def matchesHexCodeFormat : List Char → Bool
  | [a, b, c, d, '-', e, f, g, h] =>
      isHexUpperChar a && isHexUpperChar b && isHexUpperChar c &&
        isHexUpperChar d && isHexUpperChar e && isHexUpperChar f &&
        isHexUpperChar g && isHexUpperChar h
  | _ => false

theorem hexChar_isCodeChar : ∀ n, n < 16 → isCodeChar (hexChar n) = true := by
  decide

theorem hexChar_isHexUpperChar : ∀ n, n < 16 →
    isHexUpperChar (hexChar n) = true := by
  decide

theorem hexChar_ne_Z : ∀ n, n < 16 → hexChar n ≠ 'Z' := by
  decide

theorem makeTransferCode_matches (b1 b2 b3 b4 : Nat) (h1 : b1 < 256)
    (h2 : b2 < 256) (h3 : b3 < 256) (h4 : b4 < 256) :
    matchesCodeFormat (makeTransferCode b1 b2 b3 b4) = true
    ∧ matchesHexCodeFormat (makeTransferCode b1 b2 b3 b4) = true := by
  have d1 : b1 / 16 < 16 := by omega
  have d2 : b2 / 16 < 16 := by omega
  have d3 : b3 / 16 < 16 := by omega
  have d4 : b4 / 16 < 16 := by omega
  have m1 : b1 % 16 < 16 := by omega
  have m2 : b2 % 16 < 16 := by omega
  have m3 : b3 % 16 < 16 := by omega
  have m4 : b4 % 16 < 16 := by omega
  constructor
  · simp only [makeTransferCode, byteToHex, List.cons_append, List.nil_append,
      matchesCodeFormat]
    simp [hexChar_isCodeChar _ d1, hexChar_isCodeChar _ m1,
      hexChar_isCodeChar _ d2, hexChar_isCodeChar _ m2,
      hexChar_isCodeChar _ d3, hexChar_isCodeChar _ m3,
      hexChar_isCodeChar _ d4, hexChar_isCodeChar _ m4]
  · simp only [makeTransferCode, byteToHex, List.cons_append, List.nil_append,
      matchesHexCodeFormat]
    simp [hexChar_isHexUpperChar _ d1, hexChar_isHexUpperChar _ m1,
      hexChar_isHexUpperChar _ d2, hexChar_isHexUpperChar _ m2,
      hexChar_isHexUpperChar _ d3, hexChar_isHexUpperChar _ m3,
      hexChar_isHexUpperChar _ d4, hexChar_isHexUpperChar _ m4]

/-- Embeds `readTtlMinutes` with the `WEBRTC_SESSION_TTL_MINUTES`
environment variable unset, so the base TTL is `DEFAULT_TTL_MINUTES = 15`:
`Math.max(10, Math.min(30, Math.floor(requested)))`, where `requested` is
the caller's JavaScript number (modelled as `ℚ`) or the default. -/
def readTtlMinutes (ttlMinutes : Option ℚ) : Int :=
  let requested : ℚ := ttlMinutes.getD 15
  max 10 (min 30 (Int.floor requested))

/-- Expiry stamped by `createTransferSessionInSupabase`:
`Date.now() + ttl * 60 * 1000`. -/
def createSessionExpiresAt (nowMs : Int) (ttlMinutes : Option ℚ) : Int :=
  nowMs + readTtlMinutes ttlMinutes * 60 * 1000

/-- Modelled from the spec (refinement comparison only): the claim's
expiry, "the creation time plus the requested TTL clamped to the bound
[10, 30] minutes, with a default of 15" — no flooring. -/
def specClampedExpiresAt (nowMs : Int) (ttlMinutes : Option ℚ) : ℚ :=
  (nowMs : ℚ) + max 10 (min 30 (ttlMinutes.getD 15)) * 60 * 1000

/-- C7 counterexample: the fractional request `ttlMinutes = 12.5` is a
valid input (the create route accepts any finite number `> 0`), yet the
code floors it: `expiresAt` lands 12 minutes after creation, not the
claim's clamped 12.5 minutes. -/
theorem c7_fractional_ttl_counterexample :
    createSessionExpiresAt 0 (some (25 / 2)) = 720000
    ∧ specClampedExpiresAt 0 (some (25 / 2)) = 750000
    ∧ ((createSessionExpiresAt 0 (some (25 / 2)) : ℚ) ≠
        specClampedExpiresAt 0 (some (25 / 2))) := by
  have hfloor : Int.floor ((25 : ℚ) / 2) = 12 := by norm_num
  have hread : readTtlMinutes (some (25 / 2)) = 12 := by
    unfold readTtlMinutes
    simp only [Option.getD_some]
    rw [hfloor]
    norm_num
  have hcreate : createSessionExpiresAt 0 (some (25 / 2)) = 720000 := by
    unfold createSessionExpiresAt
    rw [hread]
    norm_num
  have hmin : min (30 : ℚ) (25 / 2) = 25 / 2 := min_eq_right (by norm_num)
  have hmax : max (10 : ℚ) (25 / 2) = 25 / 2 := max_eq_right (by norm_num)
  have hspec : specClampedExpiresAt 0 (some (25 / 2)) = 750000 := by
    unfold specClampedExpiresAt
    simp only [Option.getD_some]
    rw [hmin, hmax]
    norm_num
  refine ⟨hcreate, hspec, ?_⟩
  rw [hcreate, hspec]
  norm_num

theorem readTtlMinutes_bounds (ttl : Option ℚ) :
    10 ≤ readTtlMinutes ttl ∧ readTtlMinutes ttl ≤ 30 := by
  unfold readTtlMinutes
  exact ⟨le_max_left _ _, max_le (by norm_num) (min_le_left _ _)⟩

/-- C7 (amended): for every valid `ttlMinutes` input (any finite positive
number, or omitted), `create` produces a transfer code matching
`^[A-Z0-9]{4}-[A-Z0-9]{4}$`, and `expiresAt` equals the creation time plus
the floor of the requested TTL clamped to [10, 30] minutes — exactly the
requested TTL clamped for integer requests, 15 minutes when omitted — so
the expiry always lies within the clamped bound. -/
theorem c7_create_code_format_and_ttl_clamp (nowMs : Int) (ttl : Option ℚ)
    (b1 b2 b3 b4 : Nat) (h1 : b1 < 256) (h2 : b2 < 256) (h3 : b3 < 256)
    (h4 : b4 < 256) :
    matchesCodeFormat (makeTransferCode b1 b2 b3 b4) = true
    ∧ createSessionExpiresAt nowMs ttl =
        nowMs + max 10 (min 30 (Int.floor (ttl.getD 15))) * 60 * 1000
    ∧ createSessionExpiresAt nowMs none = nowMs + 900000
    ∧ (∀ k : Int, ttl = some (k : ℚ) →
        createSessionExpiresAt nowMs ttl =
          nowMs + max 10 (min 30 k) * 60 * 1000)
    ∧ nowMs + 600000 ≤ createSessionExpiresAt nowMs ttl
    ∧ createSessionExpiresAt nowMs ttl ≤ nowMs + 1800000 := by
  obtain ⟨hlo, hhi⟩ := readTtlMinutes_bounds ttl
  refine ⟨(makeTransferCode_matches b1 b2 b3 b4 h1 h2 h3 h4).1, rfl, ?_, ?_, ?_, ?_⟩
  · unfold createSessionExpiresAt readTtlMinutes
    simp only [Option.getD_none]
    norm_num
  · intro k hk
    subst hk
    unfold createSessionExpiresAt readTtlMinutes
    simp only [Option.getD_some, Int.floor_intCast]
  · unfold createSessionExpiresAt
    omega
  · unfold createSessionExpiresAt
    omega

/-- Witness for C7 (amended) with `ttlMinutes` omitted and the random
bytes 171, 205, 18, 52 (code `ABCD-1234`). -/
theorem c7_create_code_format_and_ttl_clamp_witness :
    ((171 : Nat) < 256 ∧ (205 : Nat) < 256 ∧ (18 : Nat) < 256 ∧ (52 : Nat) < 256)
    ∧ (matchesCodeFormat (makeTransferCode 171 205 18 52) = true
      ∧ createSessionExpiresAt 0 none =
          0 + max 10 (min 30 (Int.floor ((none : Option ℚ).getD 15))) * 60 * 1000
      ∧ createSessionExpiresAt 0 none = 0 + 900000
      ∧ (∀ k : Int, (none : Option ℚ) = some (k : ℚ) →
          createSessionExpiresAt 0 none = 0 + max 10 (min 30 k) * 60 * 1000)
      ∧ (0 : Int) + 600000 ≤ createSessionExpiresAt 0 none
      ∧ createSessionExpiresAt 0 none ≤ 0 + 1800000) :=
  ⟨⟨by decide, by decide, by decide, by decide⟩,
    c7_create_code_format_and_ttl_clamp 0 none 171 205 18 52
      (by decide) (by decide) (by decide) (by decide)⟩

/-- C10: every transfer code generated by `makeTransferCode` is purely
hexadecimal — it matches `^[0-9A-F]{4}-[0-9A-F]{4}$`, a strict subset of
the documented `[A-Z0-9]` alphabet — while the join endpoint's format
check also accepts codes outside that subset, such as `ZZZZ-ZZZZ`, which
`create` can never issue. -/
theorem c10_generated_codes_hex_subset :
    (∀ b1 b2 b3 b4 : Nat, b1 < 256 → b2 < 256 → b3 < 256 → b4 < 256 →
        matchesHexCodeFormat (makeTransferCode b1 b2 b3 b4) = true
        ∧ matchesCodeFormat (makeTransferCode b1 b2 b3 b4) = true)
    ∧ matchesCodeFormat ['Z', 'Z', 'Z', 'Z', '-', 'Z', 'Z', 'Z', 'Z'] = true
    ∧ matchesHexCodeFormat ['Z', 'Z', 'Z', 'Z', '-', 'Z', 'Z', 'Z', 'Z'] = false
    ∧ (∀ b1 b2 b3 b4 : Nat, b1 < 256 → b2 < 256 → b3 < 256 → b4 < 256 →
        makeTransferCode b1 b2 b3 b4 ≠
          ['Z', 'Z', 'Z', 'Z', '-', 'Z', 'Z', 'Z', 'Z']) := by
  refine ⟨?_, by decide, by decide, ?_⟩
  · intro b1 b2 b3 b4 h1 h2 h3 h4
    obtain ⟨hc, hh⟩ := makeTransferCode_matches b1 b2 b3 b4 h1 h2 h3 h4
    exact ⟨hh, hc⟩
  · intro b1 b2 b3 b4 h1 _ _ _ heq
    simp only [makeTransferCode, byteToHex, List.cons_append, List.nil_append,
      List.cons.injEq] at heq
    exact hexChar_ne_Z (b1 / 16) (by omega) heq.1

/-- Witness for C10 at the concrete random bytes 171, 205, 18, 52. -/
theorem c10_generated_codes_hex_subset_witness :
    ((171 : Nat) < 256 ∧ (205 : Nat) < 256 ∧ (18 : Nat) < 256 ∧ (52 : Nat) < 256)
    ∧ ((matchesHexCodeFormat (makeTransferCode 171 205 18 52) = true
        ∧ matchesCodeFormat (makeTransferCode 171 205 18 52) = true)
      ∧ makeTransferCode 171 205 18 52 ≠
          ['Z', 'Z', 'Z', 'Z', '-', 'Z', 'Z', 'Z', 'Z']) :=
  ⟨⟨by decide, by decide, by decide, by decide⟩,
    ⟨c10_generated_codes_hex_subset.1 171 205 18 52
        (by decide) (by decide) (by decide) (by decide),
      c10_generated_codes_hex_subset.2.2.2 171 205 18 52
        (by decide) (by decide) (by decide) (by decide)⟩⟩

/-! ## Session store: code-allocation retry loop
(`supabaseSessionStore.ts`, `createTransferSessionInSupabase`) -/

/-- Outcome of session creation. -/
inductive CreateOutcome
  | ok (code : List Char)
  | allocFailed (message : String)
deriving DecidableEq

/-- The bound `MAX_CREATE_RETRIES = 5`. -/
def maxCreateRetries : Nat := 5

/-- The failure message returned after the retry loop is exhausted. -/
def allocFailedMessage : String :=
  "Could not create transfer session after retrying transfer code generation."

/-- Embeds the retry loop of `createTransferSessionInSupabase`:
`for (attempt = 0; attempt < MAX_CREATE_RETRIES; attempt++)` draws a fresh
candidate code each iteration; an insert hitting the uniqueness constraint
(HTTP 409 or a duplicate-key error) continues the loop; a successful
insert returns; after the loop the allocation-failure error is returned.
`collides` abstracts the insert's uniqueness outcome and `cands` the
stream of generated candidate codes; the second result component counts
the attempts performed. -/
def createLoop (collides : List Char → Bool) (cands : Nat → List Char) :
    Nat → Nat → CreateOutcome × Nat
  | 0, attempt => (.allocFailed allocFailedMessage, attempt)
  | fuel + 1, attempt =>
      if collides (cands attempt) then createLoop collides cands fuel (attempt + 1)
      else (.ok (cands attempt), attempt + 1)

/-- `createTransferSessionInSupabase` seen through the retry loop. -/
def createTransferSessionInSupabase (collides : List Char → Bool)
    (cands : Nat → List Char) : CreateOutcome × Nat :=
  createLoop collides cands maxCreateRetries 0

theorem createLoop_all_collide (collides : List Char → Bool)
    (cands : Nat → List Char) :
    ∀ fuel attempt,
      (∀ i, attempt ≤ i → i < attempt + fuel → collides (cands i) = true) →
      createLoop collides cands fuel attempt =
        (.allocFailed allocFailedMessage, attempt + fuel) := by
  intro fuel
  induction fuel with
  | zero => intro a _; simp [createLoop]
  | succ fuel ih =>
      intro a hall
      have hc : collides (cands a) = true := hall a (le_refl _) (by omega)
      simp only [createLoop, hc, if_true]
      rw [ih (a + 1) fun i hi1 hi2 => hall i (by omega) (by omega)]
      refine congrArg _ ?_
      omega

theorem createLoop_first_success (collides : List Char → Bool)
    (cands : Nat → List Char) :
    ∀ fuel attempt j, attempt ≤ j → j < attempt + fuel →
      (∀ i, attempt ≤ i → i < j → collides (cands i) = true) →
      collides (cands j) = false →
      createLoop collides cands fuel attempt = (.ok (cands j), j + 1) := by
  intro fuel
  induction fuel with
  | zero => intro a j h1 h2 _ _; omega
  | succ fuel ih =>
      intro a j h1 h2 hall hj
      by_cases haj : a = j
      · subst haj
        simp [createLoop, hj]
      · have hca : collides (cands a) = true := hall a (le_refl _) (by omega)
        simp only [createLoop, hca, if_true]
        exact ih (a + 1) j (by omega) (by omega)
          (fun i hi1 hi2 => hall i (by omega) hi2) hj

theorem createLoop_attempts_le (collides : List Char → Bool)
    (cands : Nat → List Char) :
    ∀ fuel attempt, (createLoop collides cands fuel attempt).2 ≤ attempt + fuel := by
  intro fuel
  induction fuel with
  | zero => intro a; simp [createLoop]
  | succ fuel ih =>
      intro a
      simp only [createLoop]
      split
      · have := ih (a + 1)
        omega
      · simp only
        omega

/-- C8: on uniqueness collisions `create` retries with fresh candidate
codes, at most `MAX_CREATE_RETRIES = 5` attempts in total; when every
attempt collides it fails with the dedicated could-not-allocate error
(reason `unknown`, message "Could not create transfer session after
retrying transfer code generation."), and when attempt `j < 5` is the
first non-colliding one it succeeds with that code after `j + 1`
attempts. -/
theorem c8_create_retry_bound (collides : List Char → Bool)
    (cands : Nat → List Char) :
    ((∀ i, i < maxCreateRetries → collides (cands i) = true) →
        createTransferSessionInSupabase collides cands =
          (.allocFailed allocFailedMessage, maxCreateRetries))
    ∧ (∀ j, j < maxCreateRetries → (∀ i, i < j → collides (cands i) = true) →
        collides (cands j) = false →
        createTransferSessionInSupabase collides cands = (.ok (cands j), j + 1))
    ∧ (createTransferSessionInSupabase collides cands).2 ≤ maxCreateRetries := by
  refine ⟨?_, ?_, ?_⟩
  · intro hall
    unfold createTransferSessionInSupabase
    rw [createLoop_all_collide collides cands maxCreateRetries 0
      fun i hi1 hi2 => hall i (by omega)]
    rw [Nat.zero_add]
  · intro j hj hall hcj
    unfold createTransferSessionInSupabase
    exact createLoop_first_success collides cands maxCreateRetries 0 j
      (by omega) (by omega) (fun i _ hi2 => hall i hi2) hcj
  · exact createLoop_attempts_le collides cands maxCreateRetries 0

/-- Witness for C8: candidate codes collide on the first two attempts and
succeed on the third. -/
theorem c8_create_retry_bound_witness :
    ((2 : Nat) < maxCreateRetries
      ∧ (∀ i, i < 2 →
          (fun code => decide (code = ([] : List Char)))
            ((fun i => if i < 2 then ([] : List Char) else ['A']) i) = true)
      ∧ (fun code => decide (code = ([] : List Char)))
          ((fun i => if i < 2 then ([] : List Char) else ['A']) 2) = false)
    ∧ createTransferSessionInSupabase
        (fun code => decide (code = ([] : List Char)))
        (fun i => if i < 2 then ([] : List Char) else ['A']) =
        (.ok ['A'], 3) :=
  ⟨⟨by decide, by decide, by decide⟩,
    (c8_create_retry_bound
        (fun code => decide (code = ([] : List Char)))
        (fun i => if i < 2 then ([] : List Char) else ['A'])).2.1 2
      (by decide) (by decide) (by decide)⟩

/-! ## Session store: atomic join
(`supabaseSessionStore.ts`, `joinTransferSessionInSupabase`)

Each `join(code)` call runs three steps against the shared session row:
the initial load with its expiry / already-joined checks, the conditional
`PATCH` filtered on `receiver_token IS NULL ∧ state = created ∧
expires_at > now` (the compare-and-set, the only statement that mutates
the row), and — when the CAS matched no row — a reload deciding the error.
Concurrency is modelled by interleaving the steps of any number of
callers in an arbitrary order; caller `i` mints the receiver token `i`. -/

/-- Stored session states. -/
inductive SessState
  | created
  | joined
  | closedSt
  | expiredSt
deriving DecidableEq

/-- The session row columns that `join` reads and writes. -/
structure DbSessionRow where
  receiverToken : Option Nat
  state : SessState
  expiresAt : Nat
deriving DecidableEq

/-- The conditional `PATCH`: succeeds — minting the receiver token and
setting `state = joined` — exactly when `receiver_token IS NULL`,
`state = created` and `expires_at > now` all hold; otherwise it matches
zero rows and leaves the row unchanged. -/
def casJoin (row : DbSessionRow) (tok : Nat) (nowMs : Nat) :
    Option DbSessionRow :=
  if row.receiverToken = none ∧ row.state = .created ∧ nowMs < row.expiresAt
  then some { row with receiverToken := some tok, state := .joined }
  else none

/-- Outcome of one `join` call (`unknownErr` is the source's final
`reason: 'unknown'` fallback when the reload still looks joinable). -/
inductive JoinOutcome
  | ok
  | expired
  | alreadyJoined
  | unknownErr
deriving DecidableEq

/-- Progress of one caller through `joinTransferSessionInSupabase`. -/
inductive JoinPhase
  | start
  | readyCas
  | needReload
  | finished (o : JoinOutcome)
deriving DecidableEq

/-- Shared world: the session row and each caller's phase. -/
structure StoreWorld where
  row : DbSessionRow
  phase : Nat → JoinPhase

/-- One scheduled step: caller `e.caller` executes its next step at time
`e.time`. -/
structure JoinEv where
  caller : Nat
  time : Nat

/-- Records caller `i` advancing to phase `p`. -/
def setPhase (w : StoreWorld) (i : Nat) (p : JoinPhase) : StoreWorld :=
  { w with phase := fun j => if j = i then p else w.phase j }

/-- One interleaving step of `joinTransferSessionInSupabase`: from
`start`, the initial load applies the expiry check
(`expiresAtMs <= Date.now()` → `expired`) and the
`receiver_token || state === 'joined'` check (→ `already-joined`), else
proceeds to the CAS; from `readyCas`, the conditional update either wins
(→ success) or matches nothing (→ reload); from `needReload`, the reload
applies the same checks and otherwise yields the `unknown` fallback. -/
def joinStep (w : StoreWorld) (e : JoinEv) : StoreWorld :=
  match w.phase e.caller with
  | .start =>
      if w.row.expiresAt ≤ e.time then
        setPhase w e.caller (.finished .expired)
      else if w.row.receiverToken ≠ none ∨ w.row.state = .joined then
        setPhase w e.caller (.finished .alreadyJoined)
      else
        setPhase w e.caller .readyCas
  | .readyCas =>
      match casJoin w.row e.caller e.time with
      | some row2 =>
          { row := row2
            phase := (setPhase w e.caller (.finished .ok)).phase }
      | none => setPhase w e.caller .needReload
  | .needReload =>
      if w.row.expiresAt ≤ e.time then
        setPhase w e.caller (.finished .expired)
      else if w.row.receiverToken ≠ none ∨ w.row.state = .joined then
        setPhase w e.caller (.finished .alreadyJoined)
      else
        setPhase w e.caller (.finished .unknownErr)
  | .finished _ => w

/-- A fresh `created` row with expiry `E` and no receiver. -/
def initRow (E : Nat) : DbSessionRow := ⟨none, .created, E⟩

/-- The row after a successful join minting token `tok`. -/
def joinedRow (E tok : Nat) : DbSessionRow := ⟨some tok, .joined, E⟩

/-- All callers at `start` on a fresh row. -/
def initWorld (E : Nat) : StoreWorld := ⟨initRow E, fun _ => .start⟩

/-- Runs a schedule of interleaved steps. -/
def joinRun (w : StoreWorld) (evs : List JoinEv) : StoreWorld :=
  evs.foldl joinStep w

/-- Inductive invariant for the join machine on a session whose expiry
has not yet passed. -/
def JoinInv (E : Nat) (w : StoreWorld) : Prop :=
  (w.row = initRow E ∨ ∃ tok, w.row = joinedRow E tok)
  ∧ (w.row = initRow E → ∀ i, w.phase i = .start ∨ w.phase i = .readyCas)
  ∧ (∀ i o, w.phase i = .finished o → o = .ok ∨ o = .alreadyJoined)
  ∧ (∀ tok, w.row = joinedRow E tok → w.phase tok = .finished .ok)
  ∧ (∀ i, w.phase i = .finished .ok → w.row = joinedRow E i)

theorem initRow_ne_joinedRow (E tok : Nat) : initRow E ≠ joinedRow E tok := by
  intro h
  simp [initRow, joinedRow] at h

theorem casJoin_initRow (E tok t : Nat) (ht : t < E) :
    casJoin (initRow E) tok t = some (joinedRow E tok) := by
  simp [casJoin, initRow, joinedRow, ht]

theorem casJoin_joinedRow (E tok0 tok t : Nat) :
    casJoin (joinedRow E tok0) tok t = none := by
  simp [casJoin, joinedRow]

theorem setPhase_row (w : StoreWorld) (i : Nat) (p : JoinPhase) :
    (setPhase w i p).row = w.row := rfl

theorem setPhase_phase_same (w : StoreWorld) (i : Nat) (p : JoinPhase) :
    (setPhase w i p).phase i = p := by
  simp [setPhase]

theorem setPhase_phase_other (w : StoreWorld) (i : Nat) (p : JoinPhase)
    (j : Nat) (h : j ≠ i) : (setPhase w i p).phase j = w.phase j := by
  simp [setPhase, h]

theorem joinInv_setPhase_mid (E : Nat) (w : StoreWorld) (c : Nat)
    (p : JoinPhase) (hpf : ∀ o, p ≠ .finished o)
    (hpB : w.row = initRow E → (p = .start ∨ p = .readyCas))
    (hcnotok : w.phase c ≠ .finished .ok) (h : JoinInv E w) :
    JoinInv E (setPhase w c p) := by
  obtain ⟨hA, hB, hC, hF, hG⟩ := h
  refine ⟨?_, ?_, ?_, ?_, ?_⟩
  · rw [setPhase_row]
    exact hA
  · intro hinit i
    rw [setPhase_row] at hinit
    by_cases hic : i = c
    · subst hic
      rw [setPhase_phase_same]
      exact hpB hinit
    · rw [setPhase_phase_other _ _ _ _ hic]
      exact hB hinit i
  · intro i o hf
    by_cases hic : i = c
    · subst hic
      rw [setPhase_phase_same] at hf
      exact absurd hf (hpf o)
    · rw [setPhase_phase_other _ _ _ _ hic] at hf
      exact hC i o hf
  · intro tok hjr
    rw [setPhase_row] at hjr
    have hok := hF tok hjr
    have htc : tok ≠ c := fun hh => hcnotok (hh ▸ hok)
    rw [setPhase_phase_other _ _ _ _ htc]
    exact hok
  · intro i hf
    by_cases hic : i = c
    · subst hic
      rw [setPhase_phase_same] at hf
      exact absurd hf (hpf .ok)
    · rw [setPhase_phase_other _ _ _ _ hic] at hf
      rw [setPhase_row]
      exact hG i hf

theorem joinInv_setPhase_aj (E : Nat) (w : StoreWorld) (c : Nat)
    (tok0 : Nat) (hrow : w.row = joinedRow E tok0)
    (hC : ∀ i o, w.phase i = .finished o → o = .ok ∨ o = .alreadyJoined)
    (hF : ∀ tok, w.row = joinedRow E tok → w.phase tok = .finished .ok)
    (hG : ∀ i, w.phase i = .finished .ok → w.row = joinedRow E i)
    (hcnotok : w.phase c ≠ .finished .ok) :
    JoinInv E (setPhase w c (.finished .alreadyJoined)) := by
  refine ⟨?_, ?_, ?_, ?_, ?_⟩
  · rw [setPhase_row]
    exact Or.inr ⟨tok0, hrow⟩
  · intro hinit
    rw [setPhase_row, hrow] at hinit
    exact absurd hinit.symm (initRow_ne_joinedRow E tok0)
  · intro i o hf
    by_cases hic : i = c
    · subst hic
      rw [setPhase_phase_same] at hf
      injection hf with ho
      exact Or.inr ho.symm
    · rw [setPhase_phase_other _ _ _ _ hic] at hf
      exact hC i o hf
  · intro tok hjr
    rw [setPhase_row] at hjr
    have hok := hF tok hjr
    have htc : tok ≠ c := fun hh => hcnotok (hh ▸ hok)
    rw [setPhase_phase_other _ _ _ _ htc]
    exact hok
  · intro i hf
    by_cases hic : i = c
    · subst hic
      rw [setPhase_phase_same] at hf
      injection hf with ho
      exact absurd ho (by simp)
    · rw [setPhase_phase_other _ _ _ _ hic] at hf
      rw [setPhase_row]
      exact hG i hf

theorem joinInv_step (E : Nat) (w : StoreWorld) (e : JoinEv)
    (ht : e.time < E) (h : JoinInv E w) : JoinInv E (joinStep w e) := by
  obtain ⟨hA, hB, hC, hF, hG⟩ := h
  have hexpE : w.row.expiresAt = E := by
    rcases hA with h1 | ⟨t0, h1⟩ <;> rw [h1] <;> rfl
  have hexp : ¬(w.row.expiresAt ≤ e.time) := by
    rw [hexpE]
    omega
  rcases hph : w.phase e.caller with _ | _ | _ | o
  · rcases hA with hrow | ⟨tok0, hrow⟩
    · have hch : ¬(w.row.receiverToken ≠ none ∨ w.row.state = .joined) := by
        rw [hrow]
        simp [initRow]
      simp only [joinStep, hph, if_neg hexp, if_neg hch]
      refine joinInv_setPhase_mid E w e.caller .readyCas (by simp)
        (fun _ => Or.inr rfl) ?_ ⟨Or.inl hrow, hB, hC, hF, hG⟩
      rw [hph]
      simp
    · have hch : w.row.receiverToken ≠ none ∨ w.row.state = .joined := by
        rw [hrow]
        simp [joinedRow]
      simp only [joinStep, hph, if_neg hexp, if_pos hch]
      refine joinInv_setPhase_aj E w e.caller tok0 hrow hC hF hG ?_
      rw [hph]
      simp
  · rcases hA with hrow | ⟨tok0, hrow⟩
    · have hcas : casJoin w.row e.caller e.time =
          some (joinedRow E e.caller) := by
        rw [hrow]
        exact casJoin_initRow E e.caller e.time ht
      simp only [joinStep, hph, hcas]
      refine ⟨Or.inr ⟨e.caller, rfl⟩, ?_, ?_, ?_, ?_⟩
      · intro hinit
        exact absurd hinit.symm (initRow_ne_joinedRow E e.caller)
      · intro i o hf
        simp only at hf
        by_cases hic : i = e.caller
        · subst hic
          rw [setPhase_phase_same] at hf
          injection hf with ho
          exact Or.inl ho.symm
        · rw [setPhase_phase_other _ _ _ _ hic] at hf
          exact hC i o hf
      · intro tok hjr
        simp only at hjr ⊢
        have htok : tok = e.caller := by
          simp only [joinedRow, DbSessionRow.mk.injEq, Option.some.injEq] at hjr
          exact hjr.1.symm
        subst htok
        rw [setPhase_phase_same]
      · intro i hf
        simp only at hf ⊢
        by_cases hic : i = e.caller
        · subst hic
          rfl
        · rw [setPhase_phase_other _ _ _ _ hic] at hf
          rcases hB hrow i with h1 | h1 <;> rw [hf] at h1 <;>
            exact JoinPhase.noConfusion h1
    · have hcas : casJoin w.row e.caller e.time = none := by
        rw [hrow]
        exact casJoin_joinedRow E tok0 e.caller e.time
      simp only [joinStep, hph, hcas]
      refine joinInv_setPhase_mid E w e.caller .needReload (by simp) ?_ ?_
        ⟨Or.inr ⟨tok0, hrow⟩, hB, hC, hF, hG⟩
      · intro hinit
        rw [hrow] at hinit
        exact absurd hinit.symm (initRow_ne_joinedRow E tok0)
      · rw [hph]
        simp
  · rcases hA with hrow | ⟨tok0, hrow⟩
    · rcases hB hrow e.caller with h1 | h1 <;> rw [hph] at h1 <;>
        exact JoinPhase.noConfusion h1
    · have hch : w.row.receiverToken ≠ none ∨ w.row.state = .joined := by
        rw [hrow]
        simp [joinedRow]
      simp only [joinStep, hph, if_neg hexp, if_pos hch]
      refine joinInv_setPhase_aj E w e.caller tok0 hrow hC hF hG ?_
      rw [hph]
      simp
  · simp only [joinStep, hph]
    exact ⟨hA, hB, hC, hF, hG⟩

theorem joinInv_run (E : Nat) (evs : List JoinEv) :
    ∀ w : StoreWorld, (∀ e ∈ evs, e.time < E) → JoinInv E w →
      JoinInv E (joinRun w evs) := by
  induction evs with
  | nil => intro w _ h; exact h
  | cons e rest ih =>
      intro w hts h
      show JoinInv E (joinRun (joinStep w e) rest)
      exact ih (joinStep w e) (fun x hx => hts x (by simp [hx]))
        (joinInv_step E w e (hts e (by simp)) h)

theorem joinInv_init (E : Nat) : JoinInv E (initWorld E) := by
  refine ⟨Or.inl rfl, fun _ i => Or.inl rfl, ?_, ?_, ?_⟩
  · intro i o hf
    exact JoinPhase.noConfusion hf
  · intro tok hjr
    exact absurd hjr (initRow_ne_joinedRow E tok)
  · intro i hf
    exact JoinPhase.noConfusion hf

/-- C1: on a session that has not expired, the only mutation any `join`
call ever applies is the compare-and-set guarded by
`receiver_token IS NULL ∧ state = created ∧ expires_at > now` — so every
reachable row is the fresh row or a joined row minted by exactly one
winner — and among any set of concurrent `join` calls on the same code,
at most one finishes successfully (minting a receiver token and setting
`state = joined`) while every other finished call gets `already-joined`;
when any call finishes at all, exactly one success exists. -/
theorem c1_join_compare_and_set_exclusive (E : Nat) (evs : List JoinEv)
    (hts : ∀ e ∈ evs, e.time < E) :
    ((joinRun (initWorld E) evs).row = initRow E
      ∨ ∃ tok, (joinRun (initWorld E) evs).row = joinedRow E tok)
    ∧ (∀ i o, (joinRun (initWorld E) evs).phase i = .finished o →
        o = .ok ∨ o = .alreadyJoined)
    ∧ (∀ i j, (joinRun (initWorld E) evs).phase i = .finished .ok →
        (joinRun (initWorld E) evs).phase j = .finished .ok → i = j)
    ∧ ((∃ i o, (joinRun (initWorld E) evs).phase i = .finished o) →
        ∃ i, (joinRun (initWorld E) evs).phase i = .finished .ok) := by
  obtain ⟨hA, hB, hC, hF, hG⟩ :=
    joinInv_run E evs (initWorld E) hts (joinInv_init E)
  refine ⟨hA, hC, ?_, ?_⟩
  · intro i j hi hj
    have h1 := hG i hi
    have h2 := hG j hj
    rw [h1] at h2
    simp only [joinedRow, DbSessionRow.mk.injEq, Option.some.injEq] at h2
    exact h2.1
  · rintro ⟨i, o, hf⟩
    rcases hC i o hf with ho | ho
    · subst ho
      exact ⟨i, hf⟩
    · subst ho
      rcases hA with hrow | ⟨tok, hrow⟩
      · rcases hB hrow i with h1 | h1 <;> rw [hf] at h1 <;>
          exact JoinPhase.noConfusion h1
      · exact ⟨tok, hF tok hrow⟩

/-- Witness for C1: two concurrent callers on a session expiring at 100ms;
caller 0 loads, caller 1 loads, caller 0 wins the CAS, caller 1's CAS
matches nothing, caller 1 reloads and gets `already-joined`. -/
theorem c1_join_compare_and_set_exclusive_witness :
    (∀ e ∈ [(⟨0, 10⟩ : JoinEv), ⟨1, 11⟩, ⟨0, 12⟩, ⟨1, 13⟩, ⟨1, 14⟩],
        e.time < 100)
    ∧ (((joinRun (initWorld 100)
          [⟨0, 10⟩, ⟨1, 11⟩, ⟨0, 12⟩, ⟨1, 13⟩, ⟨1, 14⟩]).row = initRow 100
        ∨ ∃ tok, (joinRun (initWorld 100)
            [⟨0, 10⟩, ⟨1, 11⟩, ⟨0, 12⟩, ⟨1, 13⟩, ⟨1, 14⟩]).row =
              joinedRow 100 tok)
      ∧ (∀ i o, (joinRun (initWorld 100)
            [⟨0, 10⟩, ⟨1, 11⟩, ⟨0, 12⟩, ⟨1, 13⟩, ⟨1, 14⟩]).phase i =
              .finished o → o = .ok ∨ o = .alreadyJoined)
      ∧ (∀ i j, (joinRun (initWorld 100)
            [⟨0, 10⟩, ⟨1, 11⟩, ⟨0, 12⟩, ⟨1, 13⟩, ⟨1, 14⟩]).phase i =
              .finished .ok →
          (joinRun (initWorld 100)
            [⟨0, 10⟩, ⟨1, 11⟩, ⟨0, 12⟩, ⟨1, 13⟩, ⟨1, 14⟩]).phase j =
              .finished .ok → i = j)
      ∧ ((∃ i o, (joinRun (initWorld 100)
            [⟨0, 10⟩, ⟨1, 11⟩, ⟨0, 12⟩, ⟨1, 13⟩, ⟨1, 14⟩]).phase i =
              .finished o) →
          ∃ i, (joinRun (initWorld 100)
            [⟨0, 10⟩, ⟨1, 11⟩, ⟨0, 12⟩, ⟨1, 13⟩, ⟨1, 14⟩]).phase i =
              .finished .ok)) :=
  ⟨by decide,
    c1_join_compare_and_set_exclusive 100
      [⟨0, 10⟩, ⟨1, 11⟩, ⟨0, 12⟩, ⟨1, 13⟩, ⟨1, 14⟩] (by decide)⟩

end PacketPost
